import Mathlib

/-!
Verification of the Hodgkin-Huxley simulation core of the
Neuronal_Dynamics_Interface repository.

The numeric core (rate functions, forward-Euler integrator, initial
steady state) is translated from `src/unnamed/part_000` (the hhSolver
module); the simulation-loop bookkeeping (pulse countdown, history
buffer, reset/inject handlers) is translated from `src/App.tsx`.
Floating-point numbers are modelled as real numbers.
-/

open Real

/-- State vector of the neuron, from `src/types.ts` (`HHState`). -/
structure HHState where
  V : ℝ
  m : ℝ
  h : ℝ
  n : ℝ
  t : ℝ

/-- Biophysical parameter record, from `src/types.ts` (`HHParameters`). -/
structure HHParameters where
  Cm : ℝ
  E_Na : ℝ
  E_K : ℝ
  E_L : ℝ
  g_Na : ℝ
  g_K : ℝ
  g_L : ℝ
  I_ext : ℝ

/-- Potassium activation opening rate, from `alpha_n` in the solver module. -/
noncomputable def alpha_n (V : ℝ) : ℝ :=
  let v := V + 65
  if |v - 10| < 1e-6 then 0.1
  else (0.01 * (10 - v)) / (Real.exp ((10 - v) / 10) - 1)

/-- Potassium activation closing rate, from `beta_n` in the solver module. -/
noncomputable def beta_n (V : ℝ) : ℝ :=
  let v := V + 65
  0.125 * Real.exp (-v / 80)

/-- Sodium activation opening rate, from `alpha_m` in the solver module. -/
noncomputable def alpha_m (V : ℝ) : ℝ :=
  let v := V + 65
  if |v - 25| < 1e-6 then 1
  else (0.1 * (25 - v)) / (Real.exp ((25 - v) / 10) - 1)

/-- Sodium activation closing rate, from `beta_m` in the solver module. -/
noncomputable def beta_m (V : ℝ) : ℝ :=
  let v := V + 65
  4 * Real.exp (-v / 18)

/-- Sodium inactivation opening rate, from `alpha_h` in the solver module. -/
noncomputable def alpha_h (V : ℝ) : ℝ :=
  let v := V + 65
  0.07 * Real.exp (-v / 20)

/-- Sodium inactivation closing rate, from `beta_h` in the solver module. -/
noncomputable def beta_h (V : ℝ) : ℝ :=
  let v := V + 65
  1 / (Real.exp ((30 - v) / 10) + 1)

/-- One forward-Euler integration step, from `solveHH` in the solver module. -/
noncomputable def solveHH (state : HHState) (params : HHParameters) (dt : ℝ) : HHState :=
  let I_Na := params.g_Na * state.m ^ 3 * state.h * (state.V - params.E_Na)
  let I_K := params.g_K * state.n ^ 4 * (state.V - params.E_K)
  let I_L := params.g_L * (state.V - params.E_L)
  let dV := (params.I_ext - (I_Na + I_K + I_L)) / params.Cm
  let dm := alpha_m state.V * (1 - state.m) - beta_m state.V * state.m
  let dh := alpha_h state.V * (1 - state.h) - beta_h state.V * state.h
  let dn := alpha_n state.V * (1 - state.n) - beta_n state.V * state.n
  { V := state.V + dV * dt
    m := state.m + dm * dt
    h := state.h + dh * dt
    n := state.n + dn * dt
    t := state.t + dt }

/-- Steady state at -65 mV, from `getInitialState` in the solver module. -/
noncomputable def getInitialState : HHState :=
  let V_rest : ℝ := -65
  let a_m := alpha_m V_rest
  let b_m := beta_m V_rest
  let a_h := alpha_h V_rest
  let b_h := beta_h V_rest
  let a_n := alpha_n V_rest
  let b_n := beta_n V_rest
  { V := V_rest
    m := a_m / (a_m + b_m)
    h := a_h / (a_h + b_h)
    n := a_n / (a_n + b_n)
    t := 0 }

/-- Iterating `solveHH` with fixed parameters and fixed step size. -/
noncomputable def stepN : ℕ → HHState → HHParameters → ℝ → HHState
  | 0, s, _, _ => s
  | Nat.succ k, s, p, dt => solveHH (stepN k s p dt) p dt

/-! The simulation loop, translated from `src/App.tsx`. -/

/-- Number of points kept in the graph history, from `HISTORY_LENGTH`. -/
def HISTORY_LENGTH : ℕ := 300

/-- Integration step in ms, from `DT`. -/
noncomputable def DT : ℝ := 0.05

/-- Physics sub-steps per rendered frame, from `STEPS_PER_FRAME`. -/
def STEPS_PER_FRAME : ℕ := 5

/-- Default parameter set, from `BIOLOGICAL_PARAMS`. -/
noncomputable def BIOLOGICAL_PARAMS : HHParameters :=
  { Cm := 1.0
    E_Na := 50.0
    E_K := -77.0
    E_L := -54.4
    g_Na := 120.0
    g_K := 36.0
    g_L := 0.3
    I_ext := 0.0 }

/-- All mutable state of the App component: the solver state, parameter and
pulse refs, the loop-local `historyBuffer`, and the published React state
`simHistory` that the UI reads. -/
structure AppState where
  state : HHState
  params : HHParameters
  pulse : ℝ
  buffer : List HHState
  simHistory : List HHState

/-- The App's state right after mount: `stateRef` starts at
`getInitialState()`, `paramsRef` at `BIOLOGICAL_PARAMS`, `pulseRef` at 0,
and both history containers empty. -/
noncomputable def initApp : AppState :=
  { state := getInitialState
    params := BIOLOGICAL_PARAMS
    pulse := 0
    buffer := []
    simHistory := [] }

/-- Effective injected current of the next sub-step: `I_ext` plus a 20-unit
bonus while the pulse countdown is positive (the `currentI` computation in
`loop`). -/
noncomputable def effectiveI (a : AppState) : ℝ :=
  if 0 < a.pulse then a.params.I_ext + 20 else a.params.I_ext

/-- One physics sub-step of the loop body: compute the effective current,
decrement the pulse countdown when active, and advance the solver state. -/
noncomputable def substep (a : AppState) : AppState :=
  { a with
    state := solveHH a.state { a.params with I_ext := effectiveI a } DT
    pulse := if 0 < a.pulse then a.pulse - DT else a.pulse }

/-- Running `n` sequential sub-steps. -/
noncomputable def substeps : ℕ → AppState → AppState
  | 0, a => a
  | Nat.succ k, a => substep (substeps k a)

/-- One rendered frame of `loop`: five sub-steps, then append a snapshot of
the new state to the history buffer, truncate it to the most recent
`HISTORY_LENGTH` entries, and publish it to `simHistory`. -/
noncomputable def frame (a : AppState) : AppState :=
  let a2 := substeps STEPS_PER_FRAME a
  let buf := a2.buffer ++ [a2.state]
  let buf2 := if HISTORY_LENGTH < buf.length then buf.drop (buf.length - HISTORY_LENGTH) else buf
  { a2 with buffer := buf2, simHistory := buf2 }

/-- Running `n` rendered frames. -/
noncomputable def frames : ℕ → AppState → AppState
  | 0, a => a
  | Nat.succ k, a => frame (frames k a)

/-- The inject handler, from `handleInject`: arms a 20 ms pulse countdown. -/
noncomputable def handleInject (a : AppState) : AppState :=
  { a with pulse := 20 }

/-- The reset handler, from `handleReset`: resets the solver state, the
parameters and the pulse countdown and publishes an empty history. The
loop-local `historyBuffer` is captured by the loop closure and is not
touched by the handler. -/
noncomputable def handleReset (a : AppState) : AppState :=
  { a with
    state := getInitialState
    params := BIOLOGICAL_PARAMS
    pulse := 0
    simHistory := [] }

/-- The parameter-update handler, from `handleParamChange`: replaces the
active parameter record (a partial merge is a special case). -/
noncomputable def handleParamChange (p : HHParameters) (a : AppState) : AppState :=
  { a with params := p }

/-- Read-only view of the live solver state (what the UI polls). -/
noncomputable def getCurrentState (a : AppState) : HHState := a.state

/-- Read-only view of the published history (what the oscilloscope reads). -/
noncomputable def getHistory (a : AppState) : List HHState := a.simHistory

/-! Basic bookkeeping lemmas about the loop. -/

@[simp]
theorem substep_buffer (a : AppState) : (substep a).buffer = a.buffer := rfl

@[simp]
theorem substep_simHistory (a : AppState) : (substep a).simHistory = a.simHistory := rfl

@[simp]
theorem substep_params (a : AppState) : (substep a).params = a.params := rfl

theorem substep_state_t (a : AppState) : (substep a).state.t = a.state.t + DT := rfl

@[simp]
theorem substeps_buffer (n : ℕ) (a : AppState) : (substeps n a).buffer = a.buffer := by
  induction n with
  | zero => rfl
  | succ k ih => simp [substeps, ih]

@[simp]
theorem substeps_simHistory (n : ℕ) (a : AppState) :
    (substeps n a).simHistory = a.simHistory := by
  induction n with
  | zero => rfl
  | succ k ih => simp [substeps, ih]

@[simp]
theorem substeps_params (n : ℕ) (a : AppState) : (substeps n a).params = a.params := by
  induction n with
  | zero => rfl
  | succ k ih => simp [substeps, ih]

theorem substeps_state_t (n : ℕ) (a : AppState) :
    (substeps n a).state.t = a.state.t + n * DT := by
  induction n with
  | zero => simp [substeps]
  | succ k ih =>
      rw [substeps, substep_state_t, ih]
      push_cast
      ring

theorem substeps_add (m n : ℕ) (a : AppState) :
    substeps (m + n) a = substeps n (substeps m a) := by
  induction n with
  | zero => rfl
  | succ k ih => rw [← Nat.add_assoc, substeps, substeps, ih]

/-- Claim C1: for every state, parameter record and dt, `solveHH` returns
exactly the forward-Euler update, with all six rate functions evaluated at
the current V and with t advanced by dt. -/
theorem C1_step_forward_euler (s : HHState) (p : HHParameters) (dt : ℝ) :
    solveHH s p dt =
      { V := s.V + dt * (p.I_ext -
               (p.g_Na * s.m ^ 3 * s.h * (s.V - p.E_Na) +
                p.g_K * s.n ^ 4 * (s.V - p.E_K) +
                p.g_L * (s.V - p.E_L))) / p.Cm
        m := s.m + dt * (alpha_m s.V * (1 - s.m) - beta_m s.V * s.m)
        h := s.h + dt * (alpha_h s.V * (1 - s.h) - beta_h s.V * s.h)
        n := s.n + dt * (alpha_n s.V * (1 - s.n) - beta_n s.V * s.n)
        t := s.t + dt } := by
  simp only [solveHH, HHState.mk.injEq]
  refine ⟨by ring, by ring, by ring, by ring, trivial⟩

/-- Claim C2: at the removable singularities the rate functions return the
exact limit values: `alpha_n (-55) = 0.1` and `alpha_m (-40) = 1`. -/
theorem C2_singularity_values : alpha_n (-55) = 0.1 ∧ alpha_m (-40) = 1 := by
  constructor
  · unfold alpha_n
    rw [if_pos]
    norm_num
  · unfold alpha_m
    rw [if_pos]
    norm_num

/-- Claim C4: `getInitialState` returns V = -65, t = 0, and each gating
variable at its equilibrium value alpha/(alpha+beta) evaluated at -65. -/
theorem C4_initial_state :
    getInitialState =
      { V := -65
        m := alpha_m (-65) / (alpha_m (-65) + beta_m (-65))
        h := alpha_h (-65) / (alpha_h (-65) + beta_h (-65))
        n := alpha_n (-65) / (alpha_n (-65) + beta_n (-65))
        t := 0 } := rfl

theorem stepN_t (n : ℕ) (s : HHState) (p : HHParameters) (dt : ℝ) :
    (stepN n s p dt).t = s.t + n * dt := by
  induction n with
  | zero => simp [stepN]
  | succ k ih =>
      show (solveHH (stepN k s p dt) p dt).t = _
      show (stepN k s p dt).t + dt = _
      rw [ih]
      push_cast
      ring

/-- Claim C8: starting from a state with t = 0, iterating `solveHH` n times
with a fixed dt yields a state whose time component equals n * dt exactly
(the embedding uses exact real arithmetic). -/
theorem C8_time_accumulates (n : ℕ) (s : HHState) (p : HHParameters) (dt : ℝ)
    (h : s.t = 0) : (stepN n s p dt).t = n * dt := by
  rw [stepN_t, h, zero_add]

/-- Witness for C8 at n = 3, the initial state and unit step. -/
theorem C8_time_accumulates_witness :
    getInitialState.t = 0 ∧
      (stepN 3 getInitialState BIOLOGICAL_PARAMS 1).t = (3 : ℕ) * (1 : ℝ) :=
  ⟨rfl, C8_time_accumulates 3 getInitialState BIOLOGICAL_PARAMS 1 rfl⟩

theorem substep_pulse (a : AppState) :
    (substep a).pulse = if 0 < a.pulse then a.pulse - DT else a.pulse := rfl

/-- While at most 400 sub-steps have run since an injection, the countdown
has been decremented by DT on each of them. -/
theorem pulse_countdown (a : AppState) :
    ∀ k : ℕ, k ≤ 400 → (substeps k (handleInject a)).pulse = 20 - k * DT := by
  intro k
  induction k with
  | zero => intro _; simp [substeps, handleInject]
  | succ k ih =>
      intro hk
      have hk' : k ≤ 400 := Nat.le_of_succ_le hk
      have hkr : (k : ℝ) ≤ 399 := by
        have : k ≤ 399 := by omega
        exact_mod_cast this
      have hpos : (0 : ℝ) < 20 - k * DT := by unfold DT; nlinarith
      rw [substeps, substep_pulse, ih hk', if_pos hpos]
      push_cast
      ring

/-- A cleared pulse countdown stays cleared: sub-steps never re-arm it. -/
theorem pulse_zero (j : ℕ) (a : AppState) (h : a.pulse = 0) :
    (substeps j a).pulse = 0 := by
  induction j with
  | zero => exact h
  | succ k ih => rw [substeps, substep_pulse, ih]; simp

/-- Claim C6: after `handleInject` arms the 20 ms countdown, once the total
simulated time advanced since the injection reaches at least 20 ms the
countdown sits at 0 and stays there, and every subsequent sub-step computes
an effective current equal to `params.I_ext` with no pulse bonus. -/
theorem C6_pulse_decay (a : AppState) (j : ℕ) (h : (20 : ℝ) ≤ (j : ℝ) * DT) :
    (substeps j (handleInject a)).pulse = 0 ∧
      effectiveI (substeps j (handleInject a)) = a.params.I_ext := by
  have h400 : 400 ≤ j := by
    by_contra hc
    push_neg at hc
    have hj : (j : ℝ) ≤ 399 := by
      have : j ≤ 399 := by omega
      exact_mod_cast this
    unfold DT at h
    nlinarith
  obtain ⟨d, rfl⟩ : ∃ d, j = 400 + d := ⟨j - 400, by omega⟩
  have h0 : (substeps 400 (handleInject a)).pulse = 0 := by
    rw [pulse_countdown a 400 le_rfl]
    unfold DT
    norm_num
  have hz : (substeps (400 + d) (handleInject a)).pulse = 0 := by
    rw [substeps_add]
    exact pulse_zero d _ h0
  refine ⟨hz, ?_⟩
  unfold effectiveI
  rw [hz, if_neg (lt_irrefl 0)]
  simp [handleInject]

/-- Witness for C6 at exactly 400 sub-steps (20 ms) after injection. -/
theorem C6_pulse_decay_witness :
    (20 : ℝ) ≤ ((400 : ℕ) : ℝ) * DT ∧
      ((substeps 400 (handleInject initApp)).pulse = 0 ∧
        effectiveI (substeps 400 (handleInject initApp)) = initApp.params.I_ext) :=
  ⟨by unfold DT; norm_num, C6_pulse_decay initApp 400 (by unfold DT; norm_num)⟩

/-- Claim C5 (evaluated at the failing input): after one frame, a reset, and
one further frame, the handler's immediate effects hold (state back to
`getInitialState`, pulse 0, published history empty), but the next frame
republishes the loop-local buffer, so the snapshot recorded before the
reset is observable again as the head of the history. -/
theorem C5_reset_stale_buffer :
    getHistory (handleReset (frame initApp)) = [] ∧
      getCurrentState (handleReset (frame initApp)) = getInitialState ∧
      (handleReset (frame initApp)).pulse = 0 ∧
      getHistory (frame (handleReset (frame initApp))) =
        [getCurrentState (frame initApp),
          getCurrentState (frame (handleReset (frame initApp)))] := by
  refine ⟨rfl, rfl, rfl, ?_⟩
  simp [frame, getHistory, getCurrentState, handleReset, initApp, HISTORY_LENGTH]

/-- Snapshot published after each of the first `n` frames: entry `k` is the
solver state right after frame `k + 1`. -/
noncomputable def frameSnapshots (n : ℕ) : List HHState :=
  (List.range n).map (fun k => (frames (k + 1) initApp).state)

theorem frameSnapshots_succ (n : ℕ) :
    frameSnapshots (n + 1) = frameSnapshots n ++ [(frames (n + 1) initApp).state] := by
  simp [frameSnapshots, List.range_succ]

theorem frameSnapshots_length (n : ℕ) : (frameSnapshots n).length = n := by
  simp [frameSnapshots]

/-- After `n` frames, both the loop-local buffer and the published history
hold exactly the most recent `HISTORY_LENGTH` per-frame snapshots. -/
theorem frames_history (n : ℕ) :
    (frames n initApp).buffer = (frameSnapshots n).drop (n - HISTORY_LENGTH) ∧
      (frames n initApp).simHistory = (frameSnapshots n).drop (n - HISTORY_LENGTH) := by
  induction n with
  | zero => exact ⟨rfl, rfl⟩
  | succ n ih =>
      have hstate : (substeps STEPS_PER_FRAME (frames n initApp)).state =
          (frames (n + 1) initApp).state := rfl
      have hbuf : (frames n initApp).buffer ++ [(substeps STEPS_PER_FRAME (frames n initApp)).state] =
          (frameSnapshots (n + 1)).drop (n - HISTORY_LENGTH) := by
        rw [ih.1, hstate, frameSnapshots_succ,
          List.drop_append_of_le_length (by rw [frameSnapshots_length]; omega)]
      have hlen : ((frameSnapshots (n + 1)).drop (n - HISTORY_LENGTH)).length =
          (n + 1) - (n - HISTORY_LENGTH) := by
        rw [List.length_drop, frameSnapshots_length]
      show (frame (frames n initApp)).buffer = _ ∧ (frame (frames n initApp)).simHistory = _
      unfold frame
      simp only [substeps_buffer, hbuf, hlen]
      by_cases hn : HISTORY_LENGTH ≤ n
      · have hcond : HISTORY_LENGTH < (n + 1) - (n - HISTORY_LENGTH) := by
          unfold HISTORY_LENGTH at hn ⊢
          omega
        rw [if_pos hcond]
        have harith : (n + 1) - (n - HISTORY_LENGTH) - HISTORY_LENGTH = 1 := by
          unfold HISTORY_LENGTH at hn ⊢
          omega
        rw [harith, List.drop_drop]
        have : n - HISTORY_LENGTH + 1 = (n + 1) - HISTORY_LENGTH := by
          unfold HISTORY_LENGTH at hn ⊢
          omega
        rw [this]
        exact ⟨rfl, rfl⟩
      · have hcond : ¬ HISTORY_LENGTH < (n + 1) - (n - HISTORY_LENGTH) := by
          unfold HISTORY_LENGTH at hn ⊢
          omega
        rw [if_neg hcond]
        have : n - HISTORY_LENGTH = (n + 1) - HISTORY_LENGTH := by
          unfold HISTORY_LENGTH at hn ⊢
          omega
        rw [this]
        exact ⟨rfl, rfl⟩

/-- The solver time after `n` frames from the start is `n * 5 * DT`. -/
theorem frames_state_t (n : ℕ) :
    (frames n initApp).state.t = n * (STEPS_PER_FRAME * DT) := by
  induction n with
  | zero =>
      show getInitialState.t = _
      simp [getInitialState]
  | succ n ih =>
      have : (frames (n + 1) initApp).state.t =
          (substeps STEPS_PER_FRAME (frames n initApp)).state.t := rfl
      rw [this, substeps_state_t, ih]
      push_cast
      ring

/-- Claim C7: after any number of frames from the start, the published
history has at most `HISTORY_LENGTH` entries, consists of the most recent
per-frame snapshots (oldest evicted first), and is chronological with
strictly increasing time stamps. -/
theorem C7_history_bound (n : ℕ) :
    (getHistory (frames n initApp)).length ≤ HISTORY_LENGTH ∧
      getHistory (frames n initApp) = (frameSnapshots n).drop (n - HISTORY_LENGTH) ∧
      ((getHistory (frames n initApp)).map HHState.t).Pairwise (· < ·) := by
  have hh : getHistory (frames n initApp) = (frameSnapshots n).drop (n - HISTORY_LENGTH) :=
    (frames_history n).2
  refine ⟨?_, hh, ?_⟩
  · rw [hh, List.length_drop, frameSnapshots_length]
    unfold HISTORY_LENGTH
    omega
  · rw [hh, List.map_drop]
    have hmono : (frameSnapshots n).map HHState.t =
        (List.range n).map (fun (k : ℕ) => ((k : ℝ) + 1) * (STEPS_PER_FRAME * DT)) := by
      unfold frameSnapshots
      rw [List.map_map]
      refine List.map_congr_left (fun k _ => ?_)
      show (frames (k + 1) initApp).state.t = _
      rw [frames_state_t]
      push_cast
      ring
    have hpair : ((frameSnapshots n).map HHState.t).Pairwise (· < ·) := by
      rw [hmono, List.pairwise_map]
      refine (List.pairwise_lt_range n).imp ?_
      intro a b hab
      have hstep : (0 : ℝ) < STEPS_PER_FRAME * DT := by
        unfold STEPS_PER_FRAME DT
        norm_num
      have : (a : ℝ) + 1 < (b : ℝ) + 1 := by
        have : (a : ℝ) < b := by exact_mod_cast hab
        linarith
      exact mul_lt_mul_of_pos_right this hstep
    exact hpair.sublist (List.drop_sublist _ _)

/-! Positivity of the six rate functions. -/

theorem alpha_n_pos (V : ℝ) : 0 < alpha_n V := by
  simp only [alpha_n]
  by_cases hc : |V + 65 - 10| < 1e-6
  · rw [if_pos hc]
    norm_num
  · rw [if_neg hc]
    have hy0 : 10 - (V + 65) ≠ 0 := by
      intro h0
      apply hc
      have : V + 65 - 10 = 0 := by linarith
      rw [this]
      norm_num
    rcases hy0.lt_or_lt with hy | hy
    · apply div_pos_of_neg_of_neg (by nlinarith)
      have : Real.exp ((10 - (V + 65)) / 10) < 1 := Real.exp_lt_one_iff.mpr (by linarith)
      linarith
    · apply div_pos (by nlinarith)
      have : 1 < Real.exp ((10 - (V + 65)) / 10) := Real.one_lt_exp_iff.mpr (by linarith)
      linarith

theorem beta_n_pos (V : ℝ) : 0 < beta_n V := by
  simp only [beta_n]
  positivity

theorem alpha_m_pos (V : ℝ) : 0 < alpha_m V := by
  simp only [alpha_m]
  by_cases hc : |V + 65 - 25| < 1e-6
  · rw [if_pos hc]
    norm_num
  · rw [if_neg hc]
    have hy0 : 25 - (V + 65) ≠ 0 := by
      intro h0
      apply hc
      have : V + 65 - 25 = 0 := by linarith
      rw [this]
      norm_num
    rcases hy0.lt_or_lt with hy | hy
    · apply div_pos_of_neg_of_neg (by nlinarith)
      have : Real.exp ((25 - (V + 65)) / 10) < 1 := Real.exp_lt_one_iff.mpr (by linarith)
      linarith
    · apply div_pos (by nlinarith)
      have : 1 < Real.exp ((25 - (V + 65)) / 10) := Real.one_lt_exp_iff.mpr (by linarith)
      linarith

theorem beta_m_pos (V : ℝ) : 0 < beta_m V := by
  simp only [beta_m]
  positivity

theorem alpha_h_pos (V : ℝ) : 0 < alpha_h V := by
  simp only [alpha_h]
  positivity

theorem beta_h_pos (V : ℝ) : 0 < beta_h V := by
  simp only [beta_h]
  positivity

theorem equilibrium_mem_Ioo (a b : ℝ) (ha : 0 < a) (hb : 0 < b) :
    0 < a / (a + b) ∧ a / (a + b) < 1 := by
  constructor
  · exact div_pos ha (by linarith)
  · rw [div_lt_one (by linarith)]
    linarith

/-- Claim C10: every rate function is strictly positive at every voltage, so
the denominators in `getInitialState` are nonzero and the initial gating
variables all lie strictly between 0 and 1. -/
theorem C10_rates_positive (V : ℝ) :
    (0 < alpha_n V ∧ 0 < beta_n V ∧ 0 < alpha_m V ∧ 0 < beta_m V ∧
        0 < alpha_h V ∧ 0 < beta_h V) ∧
      (alpha_m (-65) + beta_m (-65) ≠ 0 ∧ alpha_h (-65) + beta_h (-65) ≠ 0 ∧
        alpha_n (-65) + beta_n (-65) ≠ 0) ∧
      (0 < getInitialState.m ∧ getInitialState.m < 1 ∧
        0 < getInitialState.h ∧ getInitialState.h < 1 ∧
        0 < getInitialState.n ∧ getInitialState.n < 1) := by
  have hm := equilibrium_mem_Ioo _ _ (alpha_m_pos (-65)) (beta_m_pos (-65))
  have hh := equilibrium_mem_Ioo _ _ (alpha_h_pos (-65)) (beta_h_pos (-65))
  have hn := equilibrium_mem_Ioo _ _ (alpha_n_pos (-65)) (beta_n_pos (-65))
  refine ⟨⟨alpha_n_pos V, beta_n_pos V, alpha_m_pos V, beta_m_pos V,
      alpha_h_pos V, beta_h_pos V⟩, ⟨?_, ?_, ?_⟩, ?_⟩
  · have := alpha_m_pos (-65)
    have := beta_m_pos (-65)
    positivity
  · have := alpha_h_pos (-65)
    have := beta_h_pos (-65)
    positivity
  · have := alpha_n_pos (-65)
    have := beta_n_pos (-65)
    positivity
  · exact ⟨hm.1, hm.2, hh.1, hh.2, hn.1, hn.2⟩

/-- Claim C3 fails as stated: at V = -54.999996 (so v - 10 = 4e-6) the
denominator exp((10-v)/10) - 1 is within 1e-6 of zero, yet `alpha_n` takes
its quotient branch and does not return the limit value 0.1, because the
code guards on `|v - 10| < 1e-6`, not on the denominator. -/
theorem C3_counterexample :
    |Real.exp ((10 - ((-54.999996 : ℝ) + 65)) / 10) - 1| < 1e-6 ∧
      alpha_n (-54.999996) ≠ 0.1 := by
  have hx : (10 - ((-54.999996 : ℝ) + 65)) / 10 = -4e-7 := by norm_num
  constructor
  · rw [hx]
    have h1 : |(-4e-7 : ℝ)| ≤ 1 := by
      rw [abs_of_nonpos (by norm_num)]
      norm_num
    have h2 := Real.abs_exp_sub_one_le h1
    have h3 : (2 : ℝ) * |(-4e-7 : ℝ)| = 8e-7 := by
      rw [abs_of_nonpos (by norm_num)]
      norm_num
    calc |Real.exp (-4e-7) - 1| ≤ 2 * |(-4e-7 : ℝ)| := h2
      _ < 1e-6 := by rw [h3]; norm_num
  · simp only [alpha_n]
    rw [if_neg (by
      rw [show ((-54.999996 : ℝ) + 65 - 10) = 4e-6 by norm_num,
        abs_of_nonneg (by norm_num : (0 : ℝ) ≤ 4e-6)]
      norm_num)]
    rw [hx]
    rw [show (0.01 : ℝ) * (10 - ((-54.999996 : ℝ) + 65)) = -4e-8 by norm_num]
    intro heq
    have hexp : Real.exp (-4e-7) < 1 := Real.exp_lt_one_iff.mpr (by norm_num)
    have hden : Real.exp (-4e-7) - 1 ≠ 0 := (sub_neg.mpr hexp).ne
    rw [div_eq_iff hden] at heq
    have hgt := Real.add_one_lt_exp (show (-4e-7 : ℝ) ≠ 0 by norm_num)
    linarith

/-- Claim C3 amended: `alpha_n` (resp. `alpha_m`) substitutes the limit
value 0.1 (resp. 1.0) exactly when the shifted voltage satisfies
`|v - 10| < 1e-6` (resp. `|v - 25| < 1e-6`, with v = V + 65) — in which
case the denominator of the quotient is indeed within 1e-6 of zero — and
otherwise returns the quotient formula. -/
theorem C3_amended (V : ℝ) :
    (|V + 65 - 10| < 1e-6 →
        alpha_n V = 0.1 ∧ |Real.exp ((10 - (V + 65)) / 10) - 1| < 1e-6) ∧
      (¬ |V + 65 - 10| < 1e-6 →
        alpha_n V = (0.01 * (10 - (V + 65))) / (Real.exp ((10 - (V + 65)) / 10) - 1)) ∧
      (|V + 65 - 25| < 1e-6 →
        alpha_m V = 1 ∧ |Real.exp ((25 - (V + 65)) / 10) - 1| < 1e-6) ∧
      (¬ |V + 65 - 25| < 1e-6 →
        alpha_m V = (0.1 * (25 - (V + 65))) / (Real.exp ((25 - (V + 65)) / 10) - 1)) := by
  refine ⟨fun hc => ⟨?_, ?_⟩, fun hc => ?_, fun hc => ⟨?_, ?_⟩, fun hc => ?_⟩
  · simp only [alpha_n]
    rw [if_pos hc]
  · have habs : |(10 - (V + 65)) / 10| < 1e-7 := by
      rw [abs_div, abs_sub_comm]
      rw [show |(10 : ℝ)| = 10 by norm_num]
      rw [div_lt_iff₀ (by norm_num)]
      calc |V + 65 - 10| < 1e-6 := hc
        _ = 1e-7 * 10 := by norm_num
    have h2 := Real.abs_exp_sub_one_le (le_of_lt (lt_of_lt_of_le habs (by norm_num)))
    calc |Real.exp ((10 - (V + 65)) / 10) - 1| ≤ 2 * |(10 - (V + 65)) / 10| := h2
      _ < 2 * 1e-7 := by linarith
      _ < 1e-6 := by norm_num
  · simp only [alpha_n]
    rw [if_neg hc]
  · simp only [alpha_m]
    rw [if_pos hc]
  · have habs : |(25 - (V + 65)) / 10| < 1e-7 := by
      rw [abs_div, abs_sub_comm]
      rw [show |(10 : ℝ)| = 10 by norm_num]
      rw [div_lt_iff₀ (by norm_num)]
      calc |V + 65 - 25| < 1e-6 := hc
        _ = 1e-7 * 10 := by norm_num
    have h2 := Real.abs_exp_sub_one_le (le_of_lt (lt_of_lt_of_le habs (by norm_num)))
    calc |Real.exp ((25 - (V + 65)) / 10) - 1| ≤ 2 * |(25 - (V + 65)) / 10| := h2
      _ < 2 * 1e-7 := by linarith
      _ < 1e-6 := by norm_num
  · simp only [alpha_m]
    rw [if_neg hc]

/-- Witness for the amended C3 at V = -55, inside the substitution region. -/
theorem C3_amended_witness :
    |(-55 : ℝ) + 65 - 10| < 1e-6 ∧
      (alpha_n (-55) = 0.1 ∧ |Real.exp ((10 - ((-55 : ℝ) + 65)) / 10) - 1| < 1e-6) :=
  ⟨by norm_num, (C3_amended (-55)).1 (by norm_num)⟩

/-- Linear-interval bound for the voltage increment of one Euler step at the
resting point, stated over abstract gating values. -/
theorem rest_step_bound (m0 h0 n0 : ℝ)
    (hm1 : (0.052928 : ℝ) < m0) (hm2 : m0 < 0.052935)
    (hh1 : (0.596109 : ℝ) < h0) (hh2 : h0 < 0.596131)
    (hn1 : (0.317676 : ℝ) < n0) (hn2 : n0 < 0.317678) :
    (-1e-3 : ℝ) <
        (0 - (120 * m0 ^ 3 * h0 * (-65 - 50) + 36 * n0 ^ 4 * (-65 - -77) +
          0.3 * (-65 - -54.4))) / 1 * 0.05 ∧
      (0 - (120 * m0 ^ 3 * h0 * (-65 - 50) + 36 * n0 ^ 4 * (-65 - -77) +
          0.3 * (-65 - -54.4))) / 1 * 0.05 < 1e-3 := by
  have hm2a : (0.0028013 : ℝ) < m0 ^ 2 := by nlinarith
  have hm2b : m0 ^ 2 < 0.0028022 := by nlinarith
  have hm3a : (1.4824e-4 : ℝ) < m0 ^ 3 := by nlinarith
  have hm3b : m0 ^ 3 < 1.4834e-4 := by nlinarith
  have hn2a : (0.100918 : ℝ) < n0 ^ 2 := by nlinarith
  have hn2b : n0 ^ 2 < 0.1009194 := by nlinarith
  have hn4a : (0.0101844 : ℝ) < n0 ^ 4 := by nlinarith
  have hn4b : n0 ^ 4 < 0.0101848 := by nlinarith
  have hmh1 : (8.836e-5 : ℝ) < m0 ^ 3 * h0 := by nlinarith
  have hmh2 : m0 ^ 3 * h0 < 8.844e-5 := by nlinarith
  constructor
  · nlinarith [hmh1, hmh2, hn4a, hn4b]
  · nlinarith [hmh1, hmh2, hn4a, hn4b]

set_option maxHeartbeats 4000000 in
/-- Claim C9: with the default biological parameters, zero external current
and dt = 0.05, one `solveHH` step leaves the initial resting potential of
-65 mV essentially unchanged: the voltage moves by less than 1e-3 mV. -/
theorem C9_resting_near_equilibrium :
    |(solveHH getInitialState BIOLOGICAL_PARAMS 0.05).V - getInitialState.V| < 1e-3 := by
  have hE1 : (2.71828182 : ℝ) < Real.exp 1 := by linarith [Real.exp_one_gt_d9]
  have hE2 : Real.exp 1 < 2.71828183 := by linarith [Real.exp_one_lt_d9]
  have hSpos := Real.exp_pos (0.5 : ℝ)
  have hSS : Real.exp 0.5 * Real.exp 0.5 = Real.exp 1 := by
    rw [← Real.exp_add]
    norm_num
  have hS1 : (1.6487 : ℝ) < Real.exp 0.5 := by nlinarith [hSS, hE1, hSpos]
  have hS2 : Real.exp 0.5 < 1.6488 := by nlinarith [hSS, hE2, hSpos]
  have hEE1 : (7.389056 : ℝ) < Real.exp 1 * Real.exp 1 := by nlinarith [hE1, hE2]
  have hEE2 : Real.exp 1 * Real.exp 1 < 7.38905612 := by
    nlinarith [hE1, hE2, Real.exp_pos (1 : ℝ)]
  have hXeq : Real.exp 2.5 = Real.exp 1 * Real.exp 1 * Real.exp 0.5 := by
    rw [mul_assoc, ← Real.exp_add, ← Real.exp_add]
    norm_num
  have hX1 : (12.1823 : ℝ) < Real.exp 2.5 := by
    rw [hXeq]
    nlinarith [hEE1, hEE2, hS1, hS2]
  have hX2 : Real.exp 2.5 < 12.1831 := by
    rw [hXeq]
    nlinarith [hEE1, hEE2, hS1, hS2, hSpos]
  have hYeq : Real.exp 3 = Real.exp 1 * Real.exp 1 * Real.exp 1 := by
    rw [mul_assoc, ← Real.exp_add, ← Real.exp_add]
    norm_num
  have hY1 : (20.085 : ℝ) < Real.exp 3 := by
    rw [hYeq]
    nlinarith [hEE1, hEE2, hE1, hE2]
  have hY2 : Real.exp 3 < 20.086 := by
    rw [hYeq]
    nlinarith [hEE1, hEE2, hE1, hE2, Real.exp_pos (1 : ℝ)]
  have ha_n : alpha_n (-65) = 0.1 / (Real.exp 1 - 1) := by
    simp only [alpha_n]
    rw [if_neg (by
      rw [show ((-65 : ℝ) + 65 - 10) = -10 by norm_num,
        abs_of_nonpos (by norm_num : ((-10 : ℝ)) ≤ 0)]
      norm_num)]
    norm_num
  have hb_n : beta_n (-65) = 0.125 := by
    simp only [beta_n]
    norm_num
  have ha_m : alpha_m (-65) = 2.5 / (Real.exp 2.5 - 1) := by
    simp only [alpha_m]
    rw [if_neg (by
      rw [show ((-65 : ℝ) + 65 - 25) = -25 by norm_num,
        abs_of_nonpos (by norm_num : ((-25 : ℝ)) ≤ 0)]
      norm_num)]
    norm_num
  have hb_m : beta_m (-65) = 4 := by
    simp only [beta_m]
    norm_num
  have ha_h : alpha_h (-65) = 0.07 := by
    simp only [alpha_h]
    norm_num
  have hb_h : beta_h (-65) = 1 / (Real.exp 3 + 1) := by
    simp only [beta_h]
    norm_num
  have hEm1 : (0 : ℝ) < Real.exp 1 - 1 := by linarith [hE1]
  have ha_n1 : (0.0581976 : ℝ) < alpha_n (-65) := by
    rw [ha_n, lt_div_iff₀ hEm1]
    linarith [hE2]
  have ha_n2 : alpha_n (-65) < 0.0581977 := by
    rw [ha_n, div_lt_iff₀ hEm1]
    linarith [hE1]
  have hXm1 : (0 : ℝ) < Real.exp 2.5 - 1 := by linarith [hX1]
  have ha_m1 : (0.22355 : ℝ) < alpha_m (-65) := by
    rw [ha_m, lt_div_iff₀ hXm1]
    linarith [hX2]
  have ha_m2 : alpha_m (-65) < 0.22357 := by
    rw [ha_m, div_lt_iff₀ hXm1]
    linarith [hX1]
  have hYp : (0 : ℝ) < Real.exp 3 + 1 := by linarith [hY1]
  have hb_h1 : (0.047424 : ℝ) < beta_h (-65) := by
    rw [hb_h, lt_div_iff₀ hYp]
    linarith [hY2]
  have hb_h2 : beta_h (-65) < 0.047428 := by
    rw [hb_h, div_lt_iff₀ hYp]
    linarith [hY1]
  have hm0eq : getInitialState.m = alpha_m (-65) / (alpha_m (-65) + beta_m (-65)) := rfl
  have hh0eq : getInitialState.h = alpha_h (-65) / (alpha_h (-65) + beta_h (-65)) := rfl
  have hn0eq : getInitialState.n = alpha_n (-65) / (alpha_n (-65) + beta_n (-65)) := rfl
  have hm01 : (0.052928 : ℝ) < getInitialState.m := by
    rw [hm0eq, hb_m, lt_div_iff₀ (by linarith [ha_m1])]
    linarith [ha_m1]
  have hm02 : getInitialState.m < 0.052935 := by
    rw [hm0eq, hb_m, div_lt_iff₀ (by linarith [ha_m1])]
    linarith [ha_m2]
  have hh01 : (0.596109 : ℝ) < getInitialState.h := by
    rw [hh0eq, ha_h, lt_div_iff₀ (by linarith [hb_h1])]
    linarith [hb_h2]
  have hh02 : getInitialState.h < 0.596131 := by
    rw [hh0eq, ha_h, div_lt_iff₀ (by linarith [hb_h1])]
    linarith [hb_h1]
  have hn01 : (0.317676 : ℝ) < getInitialState.n := by
    rw [hn0eq, hb_n, lt_div_iff₀ (by linarith [ha_n1])]
    linarith [ha_n1]
  have hn02 : getInitialState.n < 0.317678 := by
    rw [hn0eq, hb_n, div_lt_iff₀ (by linarith [ha_n1])]
    linarith [ha_n2]
  have hVstep : (solveHH getInitialState BIOLOGICAL_PARAMS 0.05).V =
      getInitialState.V +
        ((BIOLOGICAL_PARAMS.I_ext -
            (BIOLOGICAL_PARAMS.g_Na * getInitialState.m ^ 3 * getInitialState.h *
                (getInitialState.V - BIOLOGICAL_PARAMS.E_Na) +
              BIOLOGICAL_PARAMS.g_K * getInitialState.n ^ 4 *
                (getInitialState.V - BIOLOGICAL_PARAMS.E_K) +
              BIOLOGICAL_PARAMS.g_L * (getInitialState.V - BIOLOGICAL_PARAMS.E_L))) /
          BIOLOGICAL_PARAMS.Cm) * 0.05 := rfl
  have hV0 : getInitialState.V = -65 := rfl
  rw [hVstep, hV0,
    show BIOLOGICAL_PARAMS.I_ext = 0 by norm_num [BIOLOGICAL_PARAMS],
    show BIOLOGICAL_PARAMS.Cm = 1 by norm_num [BIOLOGICAL_PARAMS],
    show BIOLOGICAL_PARAMS.g_Na = 120 by norm_num [BIOLOGICAL_PARAMS],
    show BIOLOGICAL_PARAMS.g_K = 36 by norm_num [BIOLOGICAL_PARAMS],
    show BIOLOGICAL_PARAMS.g_L = 0.3 by norm_num [BIOLOGICAL_PARAMS],
    show BIOLOGICAL_PARAMS.E_Na = 50 by norm_num [BIOLOGICAL_PARAMS],
    show BIOLOGICAL_PARAMS.E_K = -77 by norm_num [BIOLOGICAL_PARAMS],
    show BIOLOGICAL_PARAMS.E_L = -54.4 by norm_num [BIOLOGICAL_PARAMS]]
  generalize hgm : getInitialState.m = m0 at hm01 hm02 ⊢
  generalize hgh : getInitialState.h = h0 at hh01 hh02 ⊢
  generalize hgn : getInitialState.n = n0 at hn01 hn02 ⊢
  obtain ⟨hlo, hhi⟩ := rest_step_bound m0 h0 n0 hm01 hm02 hh01 hh02 hn01 hn02
  rw [abs_lt]
  constructor
  · linarith [hlo]
  · linarith [hhi]
